import Mathlib

/-!
Verification development for the imgproxy core: a shallow embedding of the
request-processing handler, the ETag computer, the ICO writer, the vips
target callbacks, and (modelled from the spec where the source is absent)
the preset-expansion and client-hint stages of the URL parser, together
with theorems settling the specification claims about them.

Go machine values are embedded as follows: byte slices are lists of
naturals below 256, machine integers are naturals with explicit reduction
modulo 2 ^ 32 where overflow matters, strings are Lean strings, and
fallible code returns an Except value.
-/

namespace Imgproxy

/-! ## Image types

Embeds the imageType enumeration.  The declaration of the enumeration
itself lives in a file that is not part of the sources, but the handler
and the vips shim name these constants (imageTypeUnknown, imageTypeJPEG,
imageTypePNG, imageTypeWEBP, imageTypeGIF, imageTypeSVG, imageTypeHEIC,
imageTypeAVIF, imageTypeBMP, imageTypeTIFF, imageTypeICO). -/

inductive imageType where
  | unknown
  | jpeg
  | png
  | webp
  | gif
  | svg
  | heic
  | avif
  | bmp
  | tiff
  | ico
deriving DecidableEq, Repr

/-- Embeds the imageData record: raw source bytes plus the detected type.
The Go field Type is rendered Type' because Type is reserved in Lean. -/
structure imageData where
  Data : List Nat
  Type' : imageType
deriving DecidableEq, Repr

/-! ## Processing options

The processingOptions struct is declared in a source file that is not
among the sources; the fields embedded here are the ones the claims
exercise, with the semantic types the spec gives them (section 3.1).
Dpr is a positive rational standing in for the Go float64. -/

structure processingOptions where
  ResizingType : String := "fit"
  Width : Nat := 0
  Height : Nat := 0
  Dpr : ℚ := 1
  Quality : Nat := 80
  Format : imageType := .unknown
  PreferWebP : Bool := false
  EnforceWebP : Bool := false
  UsedPresets : List String := []
deriving DecidableEq, Repr

/-! ## SHA-256

Embeds the crypto/sha256 primitive that calcETag consumes, as a function
on byte lists.  Words are naturals reduced modulo 2 ^ 32. -/

def w32 : Nat := 4294967296

def rotr32 (n x : Nat) : Nat :=
  ((x >>> n) ||| (x <<< (32 - n))) % w32

def sha256K : List Nat :=
  [1116352408, 1899447441, 3049323471, 3921009573,
   961987163, 1508970993, 2453635748, 2870763221,
   3624381080, 310598401, 607225278, 1426881987,
   1925078388, 2162078206, 2614888103, 3248222580,
   3835390401, 4022224774, 264347078, 604807628,
   770255983, 1249150122, 1555081692, 1996064986,
   2554220882, 2821834349, 2952996808, 3210313671,
   3336571891, 3584528711, 113926993, 338241895,
   666307205, 773529912, 1294757372, 1396182291,
   1695183700, 1986661051, 2177026350, 2456956037,
   2730485921, 2820302411, 3259730800, 3345764771,
   3516065817, 3600352804, 4094571909, 275423344,
   430227734, 506948616, 659060556, 883997877,
   958139571, 1322822218, 1537002063, 1747873779,
   1955562222, 2024104815, 2227730452, 2361852424,
   2428436474, 2756734187, 3204031479, 3329325298]

def sha256H0 : List Nat :=
  [1779033703, 3144134277, 1013904242, 2773480762,
   1359893119, 2600822924, 528734635, 1541459225]

/-- Big-endian bytes of x, n bytes wide. -/
def beBytes (n x : Nat) : List Nat :=
  (List.range n).map (fun i => (x >>> (8 * (n - 1 - i))) % 256)

/-- SHA-256 padding: append 0x80, zero bytes to a 56 mod 64 boundary,
then the bit length over 8 bytes big-endian. -/
def sha256Pad (msg : List Nat) : List Nat :=
  let l := msg.length
  let padZeros := (64 + 55 - (l % 64)) % 64
  msg ++ [0x80] ++ List.replicate padZeros 0 ++ beBytes 8 (8 * l)

/-- Group 4 consecutive bytes into a big-endian 32-bit word. -/
def wordsOfBytes : List Nat → List Nat
  | b0 :: b1 :: b2 :: b3 :: rest =>
      (((b0 * 256 + b1) * 256 + b2) * 256 + b3) :: wordsOfBytes rest
  | _ => []

/-- Extend 16 message words to 64 schedule words. -/
def sha256Schedule (ws : List Nat) : Nat → List Nat
  | 0 => ws
  | n + 1 =>
      let prev := sha256Schedule ws n
      let get := fun i => prev.getD i 0
      let i := prev.length
      let s0 := (rotr32 7 (get (i - 15))) ^^^ (rotr32 18 (get (i - 15))) ^^^
                ((get (i - 15)) >>> 3)
      let s1 := (rotr32 17 (get (i - 2))) ^^^ (rotr32 19 (get (i - 2))) ^^^
                ((get (i - 2)) >>> 10)
      prev ++ [(get (i - 16) + s0 + get (i - 7) + s1) % w32]

/-- One round of the SHA-256 compression function. -/
def sha256Round (st : List Nat) (k w : Nat) : List Nat :=
  let a := st.getD 0 0
  let b := st.getD 1 0
  let c := st.getD 2 0
  let d := st.getD 3 0
  let e := st.getD 4 0
  let f := st.getD 5 0
  let g := st.getD 6 0
  let h := st.getD 7 0
  let s1 := (rotr32 6 e) ^^^ (rotr32 11 e) ^^^ (rotr32 25 e)
  let ch := (e &&& f) ^^^ ((w32 - 1 - e) &&& g)
  let t1 := (h + s1 + ch + k + w) % w32
  let s0 := (rotr32 2 a) ^^^ (rotr32 13 a) ^^^ (rotr32 22 a)
  let mj := (a &&& b) ^^^ (a &&& c) ^^^ (b &&& c)
  let t2 := (s0 + mj) % w32
  [(t1 + t2) % w32, a, b, c, (d + t1) % w32, e, f, g]

/-- Compress one 64-byte block into the running state. -/
def sha256Block (st : List Nat) (block : List Nat) : List Nat :=
  let ws := sha256Schedule (wordsOfBytes block) 48
  let st' := (sha256K.zip ws).foldl (fun s kw => sha256Round s kw.1 kw.2) st
  (st.zip st').map (fun p => (p.1 + p.2) % w32)

def chunksOf64 : List Nat → List (List Nat)
  | [] => []
  | a :: l => (a :: l).take 64 :: chunksOf64 ((a :: l).drop 64)
termination_by l => l.length
decreasing_by
  simp [List.length_drop]
  omega

/-- SHA-256 of a byte list, as a 32-byte list. -/
def sha256 (msg : List Nat) : List Nat :=
  let final := (chunksOf64 (sha256Pad msg)).foldl sha256Block sha256H0
  final.flatMap (beBytes 4)

/-- Bytes of a Lean string, standing in for a Go string or byte slice. -/
def strBytes (s : String) : List Nat :=
  s.data.map Char.toNat

/-- ASCII decimal rendering of a natural, as encoding/json renders ints. -/
def decDigits (n : Nat) : List Nat :=
  if n = 0 then [48] else (Nat.digits 10 n).reverse.map (fun d => d + 48)

/-- Lower-case hex digit for a value below 16. -/
def hexDigit (n : Nat) : Char :=
  if n < 10 then Char.ofNat (48 + n) else Char.ofNat (87 + n)

/-- Embeds hex.EncodeToString: lower-case hex of a byte list. -/
def hexEncodeToString (bs : List Nat) : String :=
  String.mk (bs.flatMap (fun b => [hexDigit (b / 16), hexDigit (b % 16)]))

/-! ## ETag computer

Embeds calcETag together with its pooled hash state.  The Go code draws
an eTagCalc (a hash.Hash plus a json.Encoder writing into it, configured
with SetEscapeHTML(false) and SetIndent("", "")) from a sync.Pool, so the
hash state may hold leftovers from an earlier request; the leftovers are
embedded as an arbitrary accumulated byte list.  json.Encoder.Encode
writes the canonical JSON of its argument followed by one newline byte.

The configuration struct and the version constant are declared in files
that are not among the sources, so the bytes the encoder produces for
conf, and the version string, are parameters here.  The processingOptions
encoding is modelled from the spec field list; only the fields the claims
exercise appear, and the encoding is split around the Quality field so
that theorems can reason about a change of Quality alone. -/

/-- A hash.Hash state: the bytes accumulated since the last Reset. -/
structure hashState where
  acc : List Nat
deriving DecidableEq, Repr

def hashReset (_h : hashState) : hashState := ⟨[]⟩

def hashWrite (h : hashState) (d : List Nat) : hashState := ⟨h.acc ++ d⟩

def hashSum (h : hashState) : List Nat := sha256 h.acc

/-- Embeds the pooled eTagCalc record (hash plus encoder state). -/
structure eTagCalc where
  hash : hashState
deriving DecidableEq, Repr

def jsonShortName : imageType → String
  | .unknown => ""
  | .jpeg => "jpeg"
  | .png => "png"
  | .webp => "webp"
  | .gif => "gif"
  | .svg => "svg"
  | .heic => "heic"
  | .avif => "avif"
  | .bmp => "bmp"
  | .tiff => "tiff"
  | .ico => "ico"

/-- Modelled from the spec: the canonical JSON bytes of the option fields
declared before Quality (the processingOptions struct itself is missing
from the sources).  Independent of the Quality field by construction. -/
def encodePOPre (po : processingOptions) : List Nat :=
  [123] ++ strBytes "\"resizing_type\":\"" ++ strBytes po.ResizingType ++
  strBytes "\",\"width\":" ++ decDigits po.Width ++
  strBytes ",\"height\":" ++ decDigits po.Height ++
  strBytes ",\"quality\":"

/-- Modelled from the spec: the canonical JSON bytes of the option fields
declared after Quality. -/
def encodePOSuf (po : processingOptions) : List Nat :=
  strBytes ",\"format\":\"" ++ strBytes (jsonShortName po.Format) ++
  strBytes "\"" ++ [125]

/-- Modelled from the spec: canonical JSON of a processingOptions record,
no HTML escaping, no indentation. -/
def encodePO (po : processingOptions) : List Nat :=
  encodePOPre po ++ decDigits po.Quality ++ encodePOSuf po

/-- Embeds calcETag.  The conf JSON bytes and the version string are
parameters because their declarations are not among the sources. -/
def calcETag (c : eTagCalc) (confJSON : List Nat) (version : String)
    (imgdata : imageData) (po : processingOptions) : String :=
  let h := hashReset c.hash
  let h := hashWrite h imgdata.Data
  let footprint := hashSum h
  let h2 := hashReset h
  let h2 := hashWrite h2 footprint
  let h2 := hashWrite h2 (strBytes version)
  let h2 := hashWrite h2 (confJSON ++ [10])
  let h2 := hashWrite h2 (encodePO po ++ [10])
  hexEncodeToString (hashSum h2)

/-- The bytes the outer hash consumes, written from the spec sentence:
content footprint, then version, then encoder output for conf, then
encoder output for the options. -/
def eTagEncoderInput (confJSON : List Nat) (version : String)
    (imgdata : imageData) (po : processingOptions) : List Nat :=
  sha256 imgdata.Data ++ strBytes version ++ (confJSON ++ [10]) ++
    (encodePO po ++ [10])

/-- The ETag formula as the spec states it. -/
def eTagSpec (confJSON : List Nat) (version : String)
    (imgdata : imageData) (po : processingOptions) : String :=
  hexEncodeToString (sha256 (eTagEncoderInput confJSON version imgdata po))

/-! ## Request handler

Embeds handleProcessing from processing_handler.go as a pure function.
The New Relic and Prometheus hooks, the write-timeout checks and the gzip
wrapping are effect-only and are not embedded; the admission semaphore is
embedded separately as a transition system below.  parsePath,
downloadImage and processImage live in files that are not among the
sources, so their outcomes are inputs here; imageTypeSaveSupport and
imageTypeGoodForWeb likewise enter as function parameters. -/

/-- The configuration fields the embedded code reads. -/
structure config where
  ETagEnabled : Bool := false
  SkipProcessingFormats : List imageType := []
  CacheControlPassthrough : Bool := false
  TTL : Nat := 3600
  Concurrency : Nat := 1
deriving DecidableEq, Repr

/-- A response header value for Cache-Control or Expires.  Origin strings
pass through verbatim; the synthesised values are kept structured (the
max-age directive with its TTL, and the HTTP-date for an absolute
timestamp) rather than rendered to text. -/
inductive respHeaderVal where
  | pass (s : String)
  | maxAgePublic (ttl : Nat)
  | httpDate (t : Nat)
deriving DecidableEq, Repr

/-- What the handler wrote: status, the headers the claims inspect, the
sequence of body streams written, and whether processImage ran. -/
structure response where
  status : Nat
  eTagHeader : Option String := none
  cacheControl : Option respHeaderVal := none
  expires : Option respHeaderVal := none
  contentType : Option imageType := none
  body : List (List Nat) := []
  rasterInvoked : Bool := false
deriving DecidableEq, Repr

/-- The panics the handler can raise, by stage. -/
inductive herror where
  | parseFailed
  | downloadFailed
  | processingFailed
deriving DecidableEq, Repr

/-- Embeds the Cache-Control and Expires block of prerespondWithImage
(processing_handler.go lines 69 to 84): blank both origin values unless
CacheControlPassthrough, synthesise both when both are blank, then set
each header only when non-blank.  now is the clock reading taken where
the code calls time.Now(). -/
def prerespondCacheHeaders (conf : config) (now : Nat)
    (cacheControl expires : String) :
    Option respHeaderVal × Option respHeaderVal :=
  let cc := if conf.CacheControlPassthrough then cacheControl else ""
  let exp := if conf.CacheControlPassthrough then expires else ""
  if cc = "" ∧ exp = "" then
    (some (.maxAgePublic conf.TTL), some (.httpDate (now + conf.TTL)))
  else
    (if cc = "" then none else some (.pass cc),
     if exp = "" then none else some (.pass exp))

/-- External collaborators of the handler: configuration, the fallback
image loaded at init, the encoder capability tables, the ETag computer,
the raster pipeline, and the clock. -/
structure handlerEnv where
  conf : config
  fallbackImage : Option imageData := none
  imageTypeSaveSupport : imageType → Bool
  imageTypeGoodForWeb : imageType → Bool
  etagOf : imageData → processingOptions → String
  processImage : processingOptions → imageData → Except Unit (List Nat)
  now : Nat

/-- Per-request inputs: the parse outcome, the download outcome (image
data plus origin Cache-Control and Expires), and the If-None-Match
header. -/
structure requestInput where
  parsePath : Except Unit (String × processingOptions)
  downloadImage : Except Unit (imageData × String × String)
  ifNoneMatch : String

/-- Embeds the format-resolution switch (processing_handler.go lines 192
to 203). -/
def resolveFormat (env : handlerEnv) (srcType : imageType)
    (po : processingOptions) : imageType :=
  if po.Format = .unknown then
    if po.PreferWebP && env.imageTypeSaveSupport .webp then .webp
    else if env.imageTypeSaveSupport srcType && env.imageTypeGoodForWeb srcType then
      srcType
    else .jpeg
  else if po.EnforceWebP && env.imageTypeSaveSupport .webp then .webp
  else po.Format

/-- The skip-processing shortcut guard (processing_handler.go lines 178
to 182), flattened into one condition: a non-empty whitelist, a format
match or an unknown requested format, and a whitelist hit for the
detected type. -/
def skipProcessingCond (conf : config) (srcType : imageType)
    (po : processingOptions) : Prop :=
  conf.SkipProcessingFormats.length > 0 ∧
    (srcType = po.Format ∨ po.Format = .unknown) ∧
    srcType ∈ conf.SkipProcessingFormats

instance (conf : config) (srcType : imageType) (po : processingOptions) :
    Decidable (skipProcessingCond conf srcType po) := by
  unfold skipProcessingCond
  infer_instance

/-- The handler tail after format resolution: write headers, run the
raster pipeline into the response writer. -/
def resolveAndProcess (env : handlerEnv) (po : processingOptions)
    (imgdata : imageData) (cacheControl expires : String)
    (etagHdr : Option String) : Except herror response :=
  let po' := { po with Format := resolveFormat env imgdata.Type' po }
  let hdrs := prerespondCacheHeaders env.conf env.now cacheControl expires
  match env.processImage po' imgdata with
  | .error _ => .error .processingFailed
  | .ok outBytes =>
      .ok { status := 200, eTagHeader := etagHdr, cacheControl := hdrs.1,
            expires := hdrs.2, contentType := some po'.Format,
            body := [outBytes], rasterInvoked := true }

/-- The handler from the ETag conditional onwards, once the image to be
processed is fixed (downloaded bytes or the fallback). -/
def handleAfterDownload (env : handlerEnv) (req : requestInput)
    (po : processingOptions) (imgdata : imageData)
    (cacheControl expires : String) : Except herror response :=
  let etagHdr := if env.conf.ETagEnabled then some (env.etagOf imgdata po) else none
  if env.conf.ETagEnabled ∧ req.ifNoneMatch = env.etagOf imgdata po then
    .ok { status := 304, eTagHeader := etagHdr }
  else if skipProcessingCond env.conf imgdata.Type' po then
    let po' := { po with Format := imgdata.Type' }
    let hdrs := prerespondCacheHeaders env.conf env.now cacheControl expires
    .ok { status := 200, eTagHeader := etagHdr, cacheControl := hdrs.1,
          expires := hdrs.2, contentType := some po'.Format,
          body := [imgdata.Data], rasterInvoked := false }
  else
    resolveAndProcess env po imgdata cacheControl expires etagHdr

/-- Embeds handleProcessing: parse, download with fallback substitution
(the download's Cache-Control and Expires stay at their zero values on
the fallback path), then the conditional, shortcut, resolution and
processing stages. -/
def handleProcessing (env : handlerEnv) (req : requestInput) :
    Except herror response :=
  match req.parsePath with
  | .error _ => .error .parseFailed
  | .ok (_imgURL, po) =>
      match req.downloadImage with
      | .error _ =>
          match env.fallbackImage with
          | none => .error .downloadFailed
          | some fb => handleAfterDownload env req po fb "" ""
      | .ok (d, cacheControl, expires) =>
          handleAfterDownload env req po d cacheControl expires

/-- The image whose bytes the request actually processes: the download
result, or the fallback image after a fetch failure. -/
def usedImage (env : handlerEnv) (req : requestInput) : Option imageData :=
  match req.downloadImage with
  | .ok (d, _, _) => some d
  | .error _ => env.fallbackImage

/-! ## Client hints and content negotiation

The URL parser lives in a source file that is not among the sources (only
its tests are), so these two parsing stages are modelled from the spec
(section 4.1 steps 7 and 8) and checked against the tests in the sources. -/

/-- The client-hint request headers, already parsed to numbers. -/
structure clientHints where
  width : Option Nat := none
  viewportWidth : Option Nat := none
  dpr : Option ℚ := none

/-- Modelled from the spec: apply client-hint overrides if
EnableClientHints; the Width header, or failing that Viewport-Width, sets
Width only if no explicit width was set in the URL (an unset width is 0,
the spec's unconstrained value); the DPR header sets Dpr similarly (an
unset Dpr is the default 1). -/
def applyClientHints (enableClientHints : Bool) (h : clientHints)
    (po : processingOptions) : processingOptions :=
  if enableClientHints then
    let po1 :=
      if po.Width = 0 then
        match h.width with
        | some w => { po with Width := w }
        | none =>
            match h.viewportWidth with
            | some w => { po with Width := w }
            | none => po
      else po
    if po1.Dpr = 1 then
      match h.dpr with
      | some d => { po1 with Dpr := d }
      | none => po1
    else po1
  else po

/-- Modelled from the spec: apply content negotiation if
EnableWebpDetection or EnforceWebp; if the Accept header contains
image/webp, set PreferWebP, and EnforceWebp additionally sets EnforceWebP
regardless of the requested format. -/
def applyContentNegotiation (enableWebpDetection enforceWebp : Bool)
    (acceptHasWebp : Bool) (po : processingOptions) : processingOptions :=
  if (enableWebpDetection || enforceWebp) && acceptHasWebp then
    { po with PreferWebP := true,
              EnforceWebP := po.EnforceWebP || enforceWebp }
  else po

/-! ## Preset expansion

The preset-expanding option parser is in the missing parser file; it is
modelled from the spec (sections 3.3 and 4.1 step 6): a preset atom
expands each referenced preset in place, in order, skipping names already
in UsedPresets and recording newly expanded names there; a referenced
name with no definition is an InvalidOption error.  Expansion is written
as a worklist interpreter with explicit fuel so that it is structurally
recursive and computable; the fuel-sufficiency theorem below is the
termination claim. -/

/-- Embeds the urlOption record the tests construct. -/
structure urlOption where
  Name : String
  Args : List String
deriving DecidableEq, Repr

/-- Embeds urlOptions. -/
abbrev urlOptions := List urlOption

/-- The option-parsing state the claims inspect: the expanded preset
names in order, and the most recent arguments seen for each option name
(repeating an option overwrites). -/
structure parseState where
  UsedPresets : List String := []
  fields : List (String × List String) := []
deriving DecidableEq, Repr

/-- Apply one non-preset option atom: record its arguments, overwriting
any earlier occurrence. -/
def setOption (st : parseState) (o : urlOption) : parseState :=
  { st with fields := (o.Name, o.Args) :: st.fields.filter (fun p => p.1 ≠ o.Name) }

/-- A worklist item: an option atom still to apply, or a preset name
still to expand. -/
inductive presetItem where
  | opt (o : urlOption)
  | pname (n : String)
deriving DecidableEq, Repr

inductive expandError where
  | unknownPreset
  | depthExceeded
deriving DecidableEq, Repr

/-- The preset-expansion interpreter.  An atom named preset queues its
arguments as preset names; a queued name already in UsedPresets is
skipped; a fresh defined name is appended to UsedPresets and its body is
queued in place, in order. -/
def expandRun (presets : List (String × urlOptions)) :
    Nat → parseState → List presetItem → Except expandError parseState
  | 0, _, _ => .error .depthExceeded
  | _ + 1, st, [] => .ok st
  | fuel + 1, st, .opt o :: rest =>
      if o.Name = "preset" then
        expandRun presets fuel st (o.Args.map presetItem.pname ++ rest)
      else
        expandRun presets fuel (setOption st o) rest
  | fuel + 1, st, .pname n :: rest =>
      if st.UsedPresets.contains n then
        expandRun presets fuel st rest
      else
        match presets.lookup n with
        | none => .error .unknownPreset
        | some body =>
            expandRun presets fuel
              { st with UsedPresets := st.UsedPresets ++ [n] }
              (body.map presetItem.opt ++ rest)

/-- Worklist weight of one item, for the fuel bound. -/
def itemWeight : presetItem → Nat
  | .opt o => 2 + o.Args.length
  | .pname _ => 1

def workWeight (l : List presetItem) : Nat :=
  (l.map itemWeight).sum

/-- One more than the largest body weight among the defined presets. -/
def bodyBound (presets : List (String × urlOptions)) : Nat :=
  1 + (presets.map (fun p => workWeight (p.2.map presetItem.opt))).foldr max 0

/-- The number of defined preset names not yet in UsedPresets. -/
def unusedCount (presets : List (String × urlOptions)) (st : parseState) : Nat :=
  ((presets.map Prod.fst).dedup.filter
    (fun n => !(st.UsedPresets.contains n))).length

/-- The fuel measure: expansion from a given state and worklist takes
strictly fewer steps than this. -/
def expandMeasure (presets : List (String × urlOptions)) (st : parseState)
    (work : List presetItem) : Nat :=
  bodyBound presets * unusedCount presets st + workWeight work

/-! ## Admission semaphore

Embeds the admission control of handleProcessing (processing_handler.go
lines 127 to 132) as a transition system: processingSem is a channel with
conf.Concurrency slots; the select either sends a token (admission) or
observes cancellation and panics with a 499; the deferred receive returns
the token after the response is fully written.  sem counts the tokens in
the channel; each request is one cell of reqs. -/

inductive reqPhase where
  | waiting
  | processing
  | finished
  | cancelled499
deriving DecidableEq, Repr

structure semState where
  conc : Nat
  sem : Nat
  reqs : List reqPhase
deriving DecidableEq, Repr

/-- One scheduler step: acquire a slot for a waiting request when a semaphore slot is
free, cancel a waiting request (the 499 panic path, which touches no
token), or finish an admitted request (response fully written, deferred
receive returns the token). -/
inductive semStep : semState → semState → Prop where
  | acquire (s : semState) (i : Nat) (hi : s.reqs[i]? = some .waiting)
      (hsem : s.sem < s.conc) :
      semStep s { s with sem := s.sem + 1, reqs := s.reqs.set i .processing }
  | cancel (s : semState) (i : Nat) (hi : s.reqs[i]? = some .waiting) :
      semStep s { s with reqs := s.reqs.set i .cancelled499 }
  | finish (s : semState) (i : Nat) (hi : s.reqs[i]? = some .processing) :
      semStep s { s with sem := s.sem - 1, reqs := s.reqs.set i .finished }

/-- Reachability under scheduler steps. -/
def semReach : semState → semState → Prop :=
  Relation.ReflTransGen semStep

/-- Requests admitted and not yet finished. -/
def inFlight (s : semState) : Nat :=
  s.reqs.countP (fun p => p == reqPhase.processing)

/-- The start state: n pending requests, an empty semaphore channel. -/
def semInit (conc n : Nat) : semState :=
  ⟨conc, 0, List.replicate n .waiting⟩

/-! ## The vips writer target, ICO saving, and the finish callback

Embeds the callback shims of the vips adapter.  A Go interface value is
embedded as a goValue carrying the dynamic type: an unsafe.Pointer, a
bytes.Buffer value, or an object whose dynamic type implements io.Writer
(with flags for Flush and Close methods).  pointer.Save stores the
interface value it is given in a side table; imgproxy_write recovers it
with pointer.Restore and asserts it to io.Writer.  A bytes.Buffer VALUE
is not an io.Writer in Go (Write has a pointer receiver), so the
assertion on it panics. -/

inductive goValue where
  | unsafePtr (p : Nat)
  | bufferVal (data : List Nat)
  | writerObj (id : Nat) (flushable closable : Bool)
deriving DecidableEq, Repr

/-- Whether a type assertion of the value to io.Writer succeeds. -/
def implementsIoWriter : goValue → Bool
  | .writerObj _ _ _ => true
  | _ => false

/-- Whether a type assertion to an interface with a Flush method
succeeds. -/
def hasFlushMethod : goValue → Bool
  | .writerObj _ f _ => f
  | _ => false

/-- Whether a type assertion to io.Closer succeeds. -/
def hasCloseMethod : goValue → Bool
  | .writerObj _ _ c => c
  | _ => false

/-- The engine pushing the encoded bytes through the write callback
(imgproxy_write): each chunk is delivered by pointer.Restore followed by
an assertion to io.Writer.  If nothing is ever written no callback fires;
otherwise a stored value that is not an io.Writer makes the assertion
panic.  On success the delivered bytes are returned. -/
def pushThroughTarget (stored : goValue) (encoded : List Nat) :
    Except Unit (List Nat) :=
  if encoded = [] then .ok []
  else if implementsIoWriter stored then .ok encoded
  else .error ()

inductive icoError where
  | dimensionsTooBig
  | writeCallbackPanic
deriving DecidableEq, Repr

/-- Little-endian bytes of x, n bytes wide (binary.LittleEndian). -/
def leBytes (n x : Nat) : List Nat :=
  (List.range n).map (fun i => (x >>> (8 * i)) % 256)

/-- The 6-byte ICONDIR header the code writes. -/
def icondirBytes : List Nat := [0, 0, 1, 0, 1, 0]

/-- The 16-byte ICONDIRENTRY the code writes: dimension bytes reduced
modulo 256, a zero colour count, a reserved zero, one colour plane,
32 or 24 bits per pixel by alpha, the PNG length little-endian, and the
fixed image-data offset 22. -/
def icondirEntry (width height : Nat) (hasAlpha : Bool) (pngLen : Nat) :
    List Nat :=
  [width % 256, height % 256] ++ [0] ++ [0] ++ [1, 0] ++
    (if hasAlpha then [32, 0] else [24, 0]) ++ leBytes 4 pngLen ++
    [22, 0, 0, 0]

/-- Embeds SaveAsIco (the vips adapter, lines 225 to 289).  pngBytes is
what vips_pngsave_go encodes for the image.  The code declares a local
bytes.Buffer and calls pointer.Save(imgData) on the buffer VALUE, so the
write target's stored sink is a bytes.Buffer value, and the buffer the
code later reads stays empty regardless. -/
def SaveAsIco (width height : Nat) (hasAlpha : Bool) (pngBytes : List Nat) :
    Except icoError (List Nat) :=
  if width > 256 ∨ height > 256 then .error .dimensionsTooBig
  else
    match pushThroughTarget (goValue.bufferVal []) pngBytes with
    | .error _ => .error .writeCallbackPanic
    | .ok buffered =>
        .ok (icondirBytes ++
             icondirEntry width height hasAlpha buffered.length ++ buffered)

/-- The output SaveAsIco is specified to produce, written from the claim:
ICONDIR, then ICONDIRENTRY sized by the PNG encoding, then the PNG
encoding itself; dimensions above 256 rejected. -/
def SaveAsIcoClaimed (width height : Nat) (hasAlpha : Bool)
    (pngBytes : List Nat) : Except icoError (List Nat) :=
  if width > 256 ∨ height > 256 then .error .dimensionsTooBig
  else
    .ok (icondirBytes ++
         icondirEntry width height hasAlpha pngBytes.length ++ pngBytes)

/-- The sink's externally visible state for the finish signal. -/
structure sinkState where
  flushed : Bool := false
  closed : Bool := false
deriving DecidableEq, Repr

/-- Embeds imgproxy_finish (the vips adapter, lines 643 to 652): the
user argument, a raw pointer, is converted to an interface DIRECTLY (not
through pointer.Restore), so the interface's dynamic type is
unsafe.Pointer whatever sink the side table holds for it; the two type
assertions decide whether to flush and close. -/
def imgproxy_finish (_ptrTable : Nat → Option goValue) (user : Nat)
    (s : sinkState) : sinkState :=
  let u := goValue.unsafePtr user
  let s1 := if hasFlushMethod u then { s with flushed := true } else s
  if hasCloseMethod u then { s1 with closed := true } else s1

/-! ## Theorems settling the claims -/

/-- Equality of Except values is decidable when it is on both sides. -/
def exceptDecEq {ε α : Type _} [DecidableEq ε] [DecidableEq α] :
    DecidableEq (Except ε α) := fun x y =>
  match x, y with
  | .error a, .error b =>
      if h : a = b then isTrue (by rw [h]) else isFalse (by simp [h])
  | .ok a, .ok b =>
      if h : a = b then isTrue (by rw [h]) else isFalse (by simp [h])
  | .error _, .ok _ => isFalse (by simp)
  | .ok _, .error _ => isFalse (by simp)

instance {ε α : Type _} [DecidableEq ε] [DecidableEq α] :
    DecidableEq (Except ε α) := exceptDecEq

/-- C10: for every sink registered for the user pointer, imgproxy_finish
performs no operation on it: converting the raw pointer value itself to
an interface gives a value of dynamic type unsafe.Pointer, whose type
assertions to a Flush-er and to an io.Closer never succeed, so the sink
state is returned unchanged whatever the pointer table holds. -/
theorem C10_finish_is_no_op (table : Nat → Option goValue) (user : Nat)
    (s : sinkState) :
    imgproxy_finish table user s = s ∧
    hasFlushMethod (goValue.unsafePtr user) = false ∧
    hasCloseMethod (goValue.unsafePtr user) = false :=
  ⟨rfl, rfl, rfl⟩

/-- C5: the claim describes SaveAsIco emitting ICONDIR, ICONDIRENTRY and
the PNG bytes for images within 256 by 256, but the code calls
pointer.Save(imgData) on the bytes.Buffer VALUE, so the restored sink is
not an io.Writer, the write callback's type assertion panics on the
first PNG chunk, and the claimed output is never produced even for a
16 by 16 image; the modulo-256 dimension bytes (256 rendered as 0) are
as the claim states. -/
theorem C5_saveAsIco_code_bug :
    SaveAsIco 16 16 false [137, 80, 78, 71] = .error .writeCallbackPanic ∧
    SaveAsIcoClaimed 16 16 false [137, 80, 78, 71] =
      .ok (icondirBytes ++ icondirEntry 16 16 false 4 ++ [137, 80, 78, 71]) ∧
    SaveAsIco 16 16 false [137, 80, 78, 71] ≠
      SaveAsIcoClaimed 16 16 false [137, 80, 78, 71] ∧
    SaveAsIco 300 16 false [] = .error .dimensionsTooBig ∧
    (icondirEntry 256 256 true 4).take 2 = [0, 0] :=
  ⟨by decide, by decide, by decide, by decide, by decide⟩

/-- C9 counterexample: with CacheControlPassthrough true and an origin
that sent neither Cache-Control nor Expires, the response Cache-Control
is the synthesised max-age value, not the origin's (absent) value, so
the headers are not "the origin's values exactly when passthrough is
true". -/
theorem C9_counterexample_passthrough_empty :
    (prerespondCacheHeaders ⟨false, [], true, 3600, 1⟩ 1000 "" "").1 =
      some (.maxAgePublic 3600) ∧
    (prerespondCacheHeaders ⟨false, [], true, 3600, 1⟩ 1000 "" "").1 ≠
      some (.pass "") ∧
    (prerespondCacheHeaders ⟨false, [], true, 3600, 1⟩ 1000 "" "").1 ≠
      none :=
  ⟨by decide, by decide, by decide⟩

/-- C9 (amended): the headers are the origin's values when passthrough
is true and the origin supplied at least one of them; when passthrough
is true but both origin values are empty they are synthesised as
max-age=TTL, public with an Expires TTL seconds in the future; and when
passthrough is false they are always synthesised, independent of the
origin's values. -/
theorem C9_cache_headers (conf : config) (now : Nat) (cc exp : String) :
    (conf.CacheControlPassthrough = true → (cc ≠ "" ∨ exp ≠ "") →
      prerespondCacheHeaders conf now cc exp =
        ((if cc = "" then none else some (.pass cc)),
         (if exp = "" then none else some (.pass exp)))) ∧
    (conf.CacheControlPassthrough = true → cc = "" → exp = "" →
      prerespondCacheHeaders conf now cc exp =
        (some (.maxAgePublic conf.TTL), some (.httpDate (now + conf.TTL)))) ∧
    (conf.CacheControlPassthrough = false →
      prerespondCacheHeaders conf now cc exp =
        (some (.maxAgePublic conf.TTL), some (.httpDate (now + conf.TTL)))) := by
  refine ⟨fun hp hne => ?_, fun hp hc he => ?_, fun hp => ?_⟩
  · rcases hne with hne | hne <;> simp [prerespondCacheHeaders, hp, hne]
  · simp [prerespondCacheHeaders, hp, hc, he]
  · simp [prerespondCacheHeaders, hp]

/-- C9 witness: the amended theorem applied at a passthrough
configuration with an origin Cache-Control, and at a non-passthrough
configuration. -/
theorem C9_cache_headers_witness :
    prerespondCacheHeaders ⟨false, [], true, 60, 1⟩ 5 "max-age=1" "" =
      (some (.pass "max-age=1"), none) ∧
    prerespondCacheHeaders ⟨false, [], false, 60, 1⟩ 5 "x" "y" =
      (some (.maxAgePublic 60), some (.httpDate 65)) := by
  constructor
  · have h := (C9_cache_headers ⟨false, [], true, 60, 1⟩ 5 "max-age=1" "").1
      rfl (Or.inl (by decide))
    simpa using h
  · exact (C9_cache_headers ⟨false, [], false, 60, 1⟩ 5 "x" "y").2.2 rfl

/-- C8: with EnableClientHints true the Width header, or failing it the
Viewport-Width header, sets Width only when the URL set no width (0),
the DPR header sets Dpr only when Dpr is at its default 1, explicit URL
values always win, and with EnableClientHints false the headers have no
effect at all. -/
theorem C8_client_hints (h : clientHints) (po : processingOptions) :
    applyClientHints false h po = po ∧
    (applyClientHints true h po).Width =
      (if po.Width = 0 then (h.width <|> h.viewportWidth).getD 0
       else po.Width) ∧
    (applyClientHints true h po).Dpr =
      (if po.Dpr = 1 then h.dpr.getD 1 else po.Dpr) := by
  refine ⟨by simp [applyClientHints], ?_, ?_⟩ <;>
    rcases hw : h.width with _ | w <;>
    rcases hv : h.viewportWidth with _ | v <;>
    rcases hd : h.dpr with _ | dd <;>
    by_cases h0 : po.Width = 0 <;>
    by_cases h1 : po.Dpr = 1 <;>
    simp [applyClientHints, hw, hv, hd, h0, h1]

/-- C3: the skip-processing shortcut fires exactly on its guard: when
the detected type is whitelisted and the requested format matches it or
is unknown (and no 304 was taken first), the source bytes stream through
with Format set to the detected type and the raster engine is not
invoked; on any other request that completes, the raster engine runs. -/
theorem C3_skip_processing (env : handlerEnv) (req : requestInput)
    (po : processingOptions) (u : String) (d : imageData) (cc exp : String)
    (hp : req.parsePath = .ok (u, po))
    (hd : req.downloadImage = .ok (d, cc, exp))
    (h304 : ¬(env.conf.ETagEnabled ∧ req.ifNoneMatch = env.etagOf d po)) :
    (skipProcessingCond env.conf d.Type' po →
      handleProcessing env req =
        .ok { status := 200,
              eTagHeader :=
                if env.conf.ETagEnabled then some (env.etagOf d po) else none,
              cacheControl := (prerespondCacheHeaders env.conf env.now cc exp).1,
              expires := (prerespondCacheHeaders env.conf env.now cc exp).2,
              contentType := some d.Type',
              body := [d.Data],
              rasterInvoked := false }) ∧
    (¬skipProcessingCond env.conf d.Type' po →
      ∀ resp, handleProcessing env req = .ok resp →
        resp.rasterInvoked = true) := by
  constructor
  · intro hskip
    simp [handleProcessing, hp, hd, handleAfterDownload, h304, hskip]
  · intro hns resp hresp
    simp only [handleProcessing, hp, hd] at hresp
    simp only [handleAfterDownload, if_neg h304, if_neg hns,
      resolveAndProcess] at hresp
    rcases hpi : env.processImage
        { po with Format := resolveFormat env d.Type' po } d with e | out <;>
      rw [hpi] at hresp
    · cases hresp
    · cases hresp
      rfl

/-- C3 witness: a whitelisted PNG source requested as PNG streams
through untouched. -/
def envC3 : handlerEnv :=
  { conf := { ETagEnabled := false, SkipProcessingFormats := [.png],
              CacheControlPassthrough := false, TTL := 10, Concurrency := 1 },
    fallbackImage := none,
    imageTypeSaveSupport := fun _ => true,
    imageTypeGoodForWeb := fun _ => true,
    etagOf := fun _ _ => "",
    processImage := fun _ _ => .ok [7],
    now := 0 }

def poC3 : processingOptions := { Format := imageType.png }

def reqC3 : requestInput :=
  { parsePath := .ok ("u", poC3),
    downloadImage := .ok (⟨[9], .png⟩, "", ""),
    ifNoneMatch := "" }

theorem C3_skip_processing_witness :
    handleProcessing envC3 reqC3 =
      .ok { status := 200, eTagHeader := none,
            cacheControl := some (.maxAgePublic 10),
            expires := some (.httpDate 10),
            contentType := some .png,
            body := [[9]], rasterInvoked := false } := by
  have h := (C3_skip_processing envC3 reqC3 poC3 "u" ⟨[9], .png⟩ "" ""
    rfl rfl (by simp [envC3])).1 (by decide)
  simpa [envC3, prerespondCacheHeaders] using h

/-- C4: at format resolution, an unknown requested format resolves to
WebP when PreferWebP holds and the encoder supports it, else the source
type when saveable and web-suitable, else JPEG; and whenever EnforceWebP
holds together with WebP save support the result is WebP — the latter
using the invariant, established by the spec-modelled content
negotiation, that a parsed request with EnforceWebP set also has
PreferWebP set. -/
theorem C4_format_resolution (env : handlerEnv) (srcType : imageType)
    (po po0 : processingOptions) (ewd ew acc : Bool)
    (hinv : po.EnforceWebP = true → po.PreferWebP = true) :
    (po.Format = .unknown →
      resolveFormat env srcType po =
        (if po.PreferWebP && env.imageTypeSaveSupport .webp then .webp
         else if env.imageTypeSaveSupport srcType &&
             env.imageTypeGoodForWeb srcType then srcType
         else .jpeg)) ∧
    (po.EnforceWebP = true → env.imageTypeSaveSupport .webp = true →
      resolveFormat env srcType po = .webp) ∧
    (po0.EnforceWebP = false →
      (applyContentNegotiation ewd ew acc po0).EnforceWebP = true →
      (applyContentNegotiation ewd ew acc po0).PreferWebP = true) := by
  refine ⟨fun hu => ?_, fun he hs => ?_, fun h0 hE => ?_⟩
  · simp [resolveFormat, hu]
  · by_cases hu : po.Format = .unknown
    · simp [resolveFormat, hu, hinv he, hs]
    · simp [resolveFormat, hu, he, hs]
  · by_cases hcond : ((ewd || ew) && acc) = true
    · simp [applyContentNegotiation, hcond]
    · simp [applyContentNegotiation, hcond] at hE
      exact absurd hE (by simp [h0])

def envC4 : handlerEnv :=
  { conf := {}, fallbackImage := none,
    imageTypeSaveSupport := fun _ => true,
    imageTypeGoodForWeb := fun _ => true,
    etagOf := fun _ _ => "",
    processImage := fun _ _ => .ok [],
    now := 0 }

/-- C4 witness: an unknown-format request with both negotiation flags
set resolves to WebP. -/
theorem C4_format_resolution_witness :
    resolveFormat envC4 .jpeg
      { Format := .unknown, PreferWebP := true, EnforceWebP := true } =
      .webp := by
  exact (C4_format_resolution envC4 .jpeg
    { Format := .unknown, PreferWebP := true, EnforceWebP := true }
    {} false false false (fun _ => rfl)).2.1 rfl rfl

/-- The ETag-conditional behavior of the handler tail, shared shape of
claim C2: header set from the processed image, 304 exactly on an
If-None-Match hit, empty body and no raster work on 304, one body
stream otherwise. -/
theorem handleAfterDownload_etag_spec (env : handlerEnv)
    (req : requestInput) (po : processingOptions) (d : imageData)
    (cc exp : String) (resp : response)
    (hok : handleAfterDownload env req po d cc exp = .ok resp) :
    (env.conf.ETagEnabled = true →
      resp.eTagHeader = some (env.etagOf d po) ∧
      (resp.status = 304 ↔ req.ifNoneMatch = env.etagOf d po) ∧
      (resp.status = 304 → resp.body = [] ∧ resp.rasterInvoked = false)) ∧
    (env.conf.ETagEnabled = false →
      resp.eTagHeader = none ∧ resp.status ≠ 304) ∧
    (resp.status ≠ 304 → resp.body.length = 1) := by
  by_cases h304 : env.conf.ETagEnabled ∧ req.ifNoneMatch = env.etagOf d po
  · rw [handleAfterDownload, if_pos h304] at hok
    cases hok
    refine ⟨fun hET => ?_, fun hET => ?_, fun hne => ?_⟩
    · exact ⟨by simp [hET], by simp [h304.2], fun _ => ⟨rfl, rfl⟩⟩
    · exact absurd h304.1 (by simp [hET])
    · exact absurd rfl hne
  · rw [handleAfterDownload, if_neg h304] at hok
    by_cases hskip : skipProcessingCond env.conf d.Type' po
    · rw [if_pos hskip] at hok
      cases hok
      refine ⟨fun hET => ?_, fun hET => ?_, fun _ => rfl⟩
      · refine ⟨by simp [hET], ?_, fun h => absurd h (by simp)⟩
        constructor
        · intro h
          simp at h
        · intro hm
          exact absurd ⟨hET, hm⟩ h304
      · exact ⟨by simp [hET], by simp⟩
    · rw [if_neg hskip] at hok
      rw [resolveAndProcess] at hok
      rcases hpi : env.processImage
          { po with Format := resolveFormat env d.Type' po } d with e | out <;>
        rw [hpi] at hok
      · cases hok
      · cases hok
        refine ⟨fun hET => ?_, fun hET => ?_, fun _ => rfl⟩
        · refine ⟨by simp [hET], ?_, fun h => absurd h (by simp)⟩
          constructor
          · intro h
            simp at h
          · intro hm
            exact absurd ⟨hET, hm⟩ h304
        · exact ⟨by simp [hET], by simp⟩

/-- C2: with ETagEnabled the ETag is computed from the bytes actually
processed (downloaded or fallback) and the option record and placed in
the ETag header; the response is 304 with no body and no raster work
exactly when If-None-Match equals that ETag; every other completed
response writes exactly one body stream. -/
theorem C2_etag_conditional (env : handlerEnv) (req : requestInput)
    (po : processingOptions) (u : String) (d : imageData) (resp : response)
    (hp : req.parsePath = .ok (u, po))
    (hd : usedImage env req = some d)
    (hok : handleProcessing env req = .ok resp) :
    (env.conf.ETagEnabled = true →
      resp.eTagHeader = some (env.etagOf d po) ∧
      (resp.status = 304 ↔ req.ifNoneMatch = env.etagOf d po) ∧
      (resp.status = 304 → resp.body = [] ∧ resp.rasterInvoked = false)) ∧
    (env.conf.ETagEnabled = false →
      resp.eTagHeader = none ∧ resp.status ≠ 304) ∧
    (resp.status ≠ 304 → resp.body.length = 1) := by
  rw [handleProcessing, hp] at hok
  rcases hdl : req.downloadImage with e | trip
  · rw [hdl] at hok
    rcases hfb : env.fallbackImage with _ | fb <;> rw [hfb] at hok
    · cases hok
    · have hfd : fb = d := by
        have := hd
        rw [usedImage, hdl, hfb] at this
        exact Option.some.inj this
      subst hfd
      exact handleAfterDownload_etag_spec env req po fb "" "" resp hok
  · obtain ⟨d', cc, exp⟩ := trip
    rw [hdl] at hok
    have hfd : d' = d := by
      have := hd
      rw [usedImage, hdl] at this
      exact Option.some.inj this
    subst hfd
    exact handleAfterDownload_etag_spec env req po d' cc exp resp hok

def envC2 : handlerEnv :=
  { conf := { ETagEnabled := true, SkipProcessingFormats := [],
              CacheControlPassthrough := false, TTL := 1, Concurrency := 1 },
    fallbackImage := none,
    imageTypeSaveSupport := fun _ => false,
    imageTypeGoodForWeb := fun _ => false,
    etagOf := fun _ _ => "E",
    processImage := fun _ _ => .ok [],
    now := 0 }

def reqC2 : requestInput :=
  { parsePath := .ok ("u", {}),
    downloadImage := .ok (⟨[1], .jpeg⟩, "", ""),
    ifNoneMatch := "E" }

/-- C2 witness: a matching If-None-Match yields the bodyless,
raster-free 304. -/
theorem C2_etag_conditional_witness :
    ({ status := 304, eTagHeader := some "E" } : response).body = [] ∧
    ({ status := 304, eTagHeader := some "E" } : response).rasterInvoked =
      false := by
  have h := (C2_etag_conditional envC2 reqC2 {} "u" ⟨[1], .jpeg⟩
    { status := 304, eTagHeader := some "E" } rfl rfl (by decide)).1 rfl
  exact h.2.2 rfl

/-- Reading a decimal rendering back: subtract the ASCII offset, flip to
least-significant-first, and evaluate in base 10. -/
theorem natOfDec_decDigits (q : Nat) :
    Nat.ofDigits 10 (((decDigits q).map (fun d => d - 48)).reverse) = q := by
  by_cases h0 : q = 0
  · subst h0
    simp [decDigits, Nat.ofDigits]
  · simp [decDigits, h0, List.map_map, Function.comp_def, Nat.add_sub_cancel,
      Nat.ofDigits_digits]

/-- Distinct naturals have distinct decimal renderings. -/
theorem decDigits_inj {q q' : Nat} (h : decDigits q = decDigits q') :
    q = q' := by
  have h2 := congrArg
    (fun l : List Nat => Nat.ofDigits 10 ((l.map (fun d => d - 48)).reverse)) h
  simpa [natOfDec_decDigits] using h2

/-- The encoder input up to the Quality digits. -/
def eTagQualityPre (confJSON : List Nat) (version : String) (d : imageData)
    (po : processingOptions) : List Nat :=
  sha256 d.Data ++ strBytes version ++ (confJSON ++ [10]) ++ encodePOPre po

/-- The encoder input after the Quality digits. -/
def eTagQualitySuf (po : processingOptions) : List Nat :=
  encodePOSuf po ++ [10]

theorem eTagEncoderInput_decomp (confJSON : List Nat) (version : String)
    (d : imageData) (po : processingOptions) :
    eTagEncoderInput confJSON version d po =
      eTagQualityPre confJSON version d po ++
        (decDigits po.Quality ++ eTagQualitySuf po) := by
  simp [eTagEncoderInput, eTagQualityPre, eTagQualitySuf, encodePO,
    List.append_assoc]

theorem eTagQualityPre_update (confJSON : List Nat) (version : String)
    (d : imageData) (po : processingOptions) (q : Nat) :
    eTagQualityPre confJSON version d { po with Quality := q } =
      eTagQualityPre confJSON version d po := rfl

theorem eTagQualitySuf_update (po : processingOptions) (q : Nat) :
    eTagQualitySuf { po with Quality := q } = eTagQualitySuf po := rfl

theorem quality_update (po : processingOptions) (q : Nat) :
    ({ po with Quality := q } : processingOptions).Quality = q := rfl

/-- C1: calcETag equals the hex-encoded SHA-256 of the content footprint
followed by the version string and the streaming-encoder outputs for the
configuration and the options; the result is independent of the pooled
hash state (the leading Reset clears any leftovers); and two option
records differing only in Quality feed different byte strings to the
outer hash. -/
theorem C1_calcETag_spec (c c' : eTagCalc) (confJSON : List Nat)
    (version : String) (d : imageData) (po : processingOptions) :
    calcETag c confJSON version d po = eTagSpec confJSON version d po ∧
    calcETag c confJSON version d po = calcETag c' confJSON version d po ∧
    (∀ q q', q ≠ q' →
      eTagEncoderInput confJSON version d { po with Quality := q } ≠
        eTagEncoderInput confJSON version d { po with Quality := q' }) := by
  refine ⟨?_, ?_, ?_⟩
  · simp [calcETag, eTagSpec, eTagEncoderInput, hashReset, hashWrite,
      hashSum, List.append_assoc]
  · simp [calcETag, hashReset, hashWrite, hashSum]
  · intro q q' hne heq
    apply hne
    rw [eTagEncoderInput_decomp, eTagEncoderInput_decomp,
      eTagQualityPre_update, eTagQualitySuf_update, eTagQualityPre_update,
      eTagQualitySuf_update, quality_update, quality_update] at heq
    exact decDigits_inj
      (List.append_cancel_right (List.append_cancel_left heq))

/-- C1 witness: the refinement and the Quality sensitivity at concrete
inputs. -/
theorem C1_calcETag_spec_witness :
    calcETag ⟨⟨[1, 2, 3]⟩⟩ [91] "v1" ⟨[5, 6], .png⟩ {} =
      eTagSpec [91] "v1" ⟨[5, 6], .png⟩ {} ∧
    eTagEncoderInput [91] "v1" ⟨[5, 6], .png⟩
        { ({} : processingOptions) with Quality := 10 } ≠
      eTagEncoderInput [91] "v1" ⟨[5, 6], .png⟩
        { ({} : processingOptions) with Quality := 20 } :=
  ⟨(C1_calcETag_spec ⟨⟨[1, 2, 3]⟩⟩ ⟨⟨[]⟩⟩ [91] "v1" ⟨[5, 6], .png⟩ {}).1,
   (C1_calcETag_spec ⟨⟨[1, 2, 3]⟩⟩ ⟨⟨[]⟩⟩ [91] "v1" ⟨[5, 6], .png⟩ {}).2.2
     10 20 (by decide)⟩

/-- Setting one cell rebalances a countP by the old and new cell's
contributions. -/
theorem countP_set_balance {α : Type _} (p : α → Bool) :
    ∀ (l : List α) (i : Nat) (a b : α), l[i]? = some a →
      (l.set i b).countP p + (if p a then 1 else 0) =
        l.countP p + (if p b then 1 else 0) := by
  intro l
  induction l with
  | nil =>
      intro i a b h
      simp at h
  | cons x xs ih =>
      intro i a b h
      cases i with
      | zero =>
          simp at h
          subst h
          simp [List.countP_cons]
          cases hpb : p b <;> cases hpx : p x <;> simp [hpb, hpx]
      | succ j =>
          simp at h
          have hj := ih j a b h
          simp [List.countP_cons]
          omega

/-- An indexed occurrence satisfying p makes countP positive. -/
theorem countP_pos_of_getElem {α : Type _} (p : α → Bool) (l : List α)
    (i : Nat) (a : α) (h : l[i]? = some a) (hp : p a = true) :
    0 < l.countP p := by
  apply List.countP_pos_iff.mpr
  obtain ⟨hlt, he⟩ := List.getElem?_eq_some.mp h
  exact ⟨a, he ▸ List.getElem_mem hlt, hp⟩

/-- The invariant the admission system maintains: the configured bound
is constant, the channel occupancy equals the number of admitted
unfinished requests, and it never exceeds the bound. -/
def semInv (c : Nat) (s : semState) : Prop :=
  s.conc = c ∧ s.sem = inFlight s ∧ s.sem ≤ c

theorem semInv_step {c : Nat} {s s' : semState} (hinv : semInv c s)
    (hstep : semStep s s') : semInv c s' := by
  obtain ⟨hc, hcount, hle⟩ := hinv
  cases hstep with
  | acquire i hi hsem =>
      have hb := countP_set_balance (fun p => p == reqPhase.processing)
        s.reqs i .waiting .processing hi
      simp at hb
      refine ⟨hc, ?_, ?_⟩
      · simp [inFlight] at hcount ⊢
        omega
      · simp
        omega
  | cancel i hi =>
      have hb := countP_set_balance (fun p => p == reqPhase.processing)
        s.reqs i .waiting .cancelled499 hi
      simp at hb
      refine ⟨hc, ?_, hle⟩
      simp [inFlight] at hcount ⊢
      omega
  | finish i hi =>
      have hb := countP_set_balance (fun p => p == reqPhase.processing)
        s.reqs i .processing .finished hi
      simp at hb
      have hpos : 0 < inFlight s :=
        countP_pos_of_getElem _ s.reqs i .processing hi rfl
      refine ⟨hc, ?_, ?_⟩
      · simp [inFlight] at hcount hpos ⊢
        omega
      · simp
        omega

theorem inFlight_semInit (c n : Nat) : inFlight (semInit c n) = 0 := by
  simp only [inFlight, semInit]
  induction n with
  | zero => rfl
  | succ m ih => simp [List.replicate_succ, List.countP_cons, ih]

/-- A cell holding a phase other than the one being stepped keeps its
contents across the step's set. -/
theorem getElem?_set_preserve {l : List reqPhase} {i j : Nat}
    {a b cph : reqPhase} (hj : l[j]? = some a) (h : l[i]? = some cph)
    (hne : a ≠ cph) : (l.set j b)[i]? = some cph := by
  rw [List.getElem?_set]
  by_cases hji : j = i
  · subst hji
    exact absurd (hj.symm.trans h) (by simp [hne])
  · simp [hji, h]

theorem semInv_reach {c n : Nat} {s : semState}
    (hr : semReach (semInit c n) s) : semInv c s := by
  induction hr with
  | refl => exact ⟨rfl, (inFlight_semInit c n).symm, Nat.zero_le c⟩
  | tail _ hstep ih => exact semInv_step ih hstep

/-- C6: along every schedule from an idle start, the channel occupancy
equals the number of admitted unfinished requests and stays within
Concurrency; cancelling a waiting request produces its 499 step without
touching the semaphore; and finished or cancelled requests stay
terminal, so an admitted request's token is returned exactly once, by
its finish step. -/
theorem C6_admission_semaphore :
    (∀ c n s, semReach (semInit c n) s →
      s.sem = inFlight s ∧ inFlight s ≤ c ∧ s.sem ≤ c) ∧
    (∀ s i, s.reqs[i]? = some .waiting →
      semStep s { s with reqs := s.reqs.set i .cancelled499 } ∧
      ({ s with reqs := s.reqs.set i .cancelled499 } : semState).sem =
        s.sem) ∧
    (∀ (s s' : semState), semStep s s' → ∀ i : Nat,
      (s.reqs[i]? = some reqPhase.finished →
        s'.reqs[i]? = some reqPhase.finished) ∧
      (s.reqs[i]? = some reqPhase.cancelled499 →
        s'.reqs[i]? = some reqPhase.cancelled499)) := by
  refine ⟨fun c n s hr => ?_, fun s i hi => ?_, fun s s' hstep i => ?_⟩
  · obtain ⟨_, hcount, hle⟩ := semInv_reach hr
    exact ⟨hcount, hcount ▸ hle, hle⟩
  · exact ⟨semStep.cancel s i hi, rfl⟩
  · cases hstep with
    | acquire j hj hsem =>
        exact ⟨fun h => getElem?_set_preserve hj h
                 (show reqPhase.waiting ≠ reqPhase.finished by decide),
               fun h => getElem?_set_preserve hj h
                 (show reqPhase.waiting ≠ reqPhase.cancelled499 by decide)⟩
    | cancel j hj =>
        exact ⟨fun h => getElem?_set_preserve hj h
                 (show reqPhase.waiting ≠ reqPhase.finished by decide),
               fun h => getElem?_set_preserve hj h
                 (show reqPhase.waiting ≠ reqPhase.cancelled499 by decide)⟩
    | finish j hj =>
        exact ⟨fun h => getElem?_set_preserve hj h
                 (show reqPhase.processing ≠ reqPhase.finished by decide),
               fun h => getElem?_set_preserve hj h
                 (show reqPhase.processing ≠ reqPhase.cancelled499 by decide)⟩

/-- C6 witness: the invariant at the idle two-request start state, and a
concrete cancellation consuming no token. -/
theorem C6_admission_semaphore_witness :
    ((semInit 1 2).sem = inFlight (semInit 1 2) ∧
      inFlight (semInit 1 2) ≤ 1 ∧ (semInit 1 2).sem ≤ 1) ∧
    ({ semInit 1 2 with
        reqs := (semInit 1 2).reqs.set 0 .cancelled499 } : semState).sem =
      (semInit 1 2).sem :=
  ⟨C6_admission_semaphore.1 1 2 (semInit 1 2) Relation.ReflTransGen.refl,
   (C6_admission_semaphore.2.1 (semInit 1 2) 0 (by decide)).2⟩

theorem workWeight_cons (x : presetItem) (l : List presetItem) :
    workWeight (x :: l) = itemWeight x + workWeight l := by
  simp [workWeight]

theorem workWeight_append (l1 l2 : List presetItem) :
    workWeight (l1 ++ l2) = workWeight l1 + workWeight l2 := by
  simp [workWeight]

theorem workWeight_map_pname (args : List String) :
    workWeight (args.map presetItem.pname) = args.length := by
  induction args with
  | nil => rfl
  | cons a t ih => simp [workWeight, itemWeight] at ih ⊢; omega

/-- A successful lookup's key is among the keys. -/
theorem lookup_mem_keys {presets : List (String × urlOptions)} {n : String}
    {body : urlOptions} (h : presets.lookup n = some body) :
    n ∈ presets.map Prod.fst := by
  induction presets with
  | nil => simp [List.lookup] at h
  | cons p ps ih =>
      obtain ⟨k, v⟩ := p
      by_cases hk : (n == k) = true
      · simp [eq_of_beq hk]
      · rw [Bool.not_eq_true] at hk
        simp only [List.lookup, hk] at h
        rw [List.map_cons]
        exact List.mem_cons_of_mem _ (ih h)

/-- A successful lookup's body is the body of some stored pair. -/
theorem lookup_body_mem {presets : List (String × urlOptions)} {n : String}
    {body : urlOptions} (h : presets.lookup n = some body) :
    ∃ k, (k, body) ∈ presets := by
  induction presets with
  | nil => simp [List.lookup] at h
  | cons p ps ih =>
      obtain ⟨k, v⟩ := p
      by_cases hk : (n == k) = true
      · simp only [List.lookup, hk] at h
        refine ⟨k, ?_⟩
        simp at h
        simp [h]
      · rw [Bool.not_eq_true] at hk
        simp only [List.lookup, hk] at h
        obtain ⟨k', hk'⟩ := ih h
        exact ⟨k', List.mem_cons_of_mem _ hk'⟩

theorem le_foldr_max {l : List Nat} {x : Nat} (h : x ∈ l) :
    x ≤ l.foldr max 0 := by
  induction l with
  | nil => cases h
  | cons a t ih =>
      rcases List.mem_cons.mp h with rfl | hm
      · exact Nat.le_max_left _ _
      · exact Nat.le_trans (ih hm) (Nat.le_max_right _ _)

/-- Every defined body's worklist weight is below the body bound. -/
theorem workWeight_body_lt_bodyBound {presets : List (String × urlOptions)}
    {n : String} {body : urlOptions} (h : presets.lookup n = some body) :
    workWeight (body.map presetItem.opt) < bodyBound presets := by
  obtain ⟨k, hk⟩ := lookup_body_mem h
  have hmem : workWeight (body.map presetItem.opt) ∈
      presets.map (fun p => workWeight (p.2.map presetItem.opt)) :=
    List.mem_map.mpr ⟨(k, body), hk, rfl⟩
  have h2 := le_foldr_max hmem
  simp only [bodyBound]
  omega

theorem filter_length_le_mono {α : Type _} (l : List α) (p q : α → Bool)
    (hpq : ∀ x, q x = true → p x = true) :
    (l.filter q).length ≤ (l.filter p).length := by
  induction l with
  | nil => simp
  | cons a t ih =>
      cases hq : q a with
      | true =>
          have hp := hpq a hq
          simp [List.filter_cons, hq, hp]
          exact ih
      | false =>
          cases hp : p a <;> simp [List.filter_cons, hq, hp] <;> omega

theorem filter_length_lt {α : Type _} (l : List α) (p q : α → Bool)
    (hpq : ∀ x, q x = true → p x = true) (n : α) (hnl : n ∈ l)
    (hpn : p n = true) (hqn : q n = false) (hnd : l.Nodup) :
    (l.filter q).length < (l.filter p).length := by
  induction l with
  | nil => cases hnl
  | cons a t ih =>
      rw [List.nodup_cons] at hnd
      rcases List.mem_cons.mp hnl with rfl | hmem
      · simp [List.filter_cons, hqn, hpn]
        have := filter_length_le_mono t p q hpq
        omega
      · have hlt := ih hmem hnd.2
        cases hq : q a with
        | true =>
            have hp := hpq a hq
            simp [List.filter_cons, hq, hp]
            omega
        | false =>
            cases hp : p a <;> simp [List.filter_cons, hq, hp] <;> omega

theorem unusedCount_setOption (presets : List (String × urlOptions))
    (st : parseState) (o : urlOption) :
    unusedCount presets (setOption st o) = unusedCount presets st := rfl

/-- Marking a fresh defined preset as used strictly shrinks the unused
count. -/
theorem unusedCount_mark {presets : List (String × urlOptions)}
    {st : parseState} {n : String} {body : urlOptions}
    (hlk : presets.lookup n = some body)
    (hnu : st.UsedPresets.contains n = false) :
    unusedCount presets { st with UsedPresets := st.UsedPresets ++ [n] } <
      unusedCount presets st := by
  simp only [unusedCount]
  refine filter_length_lt ((presets.map Prod.fst).dedup) _ _ ?_ n ?_ ?_ ?_ ?_
  · intro x hx
    simp at hx ⊢
    exact hx.1
  · exact List.mem_dedup.mpr (lookup_mem_keys hlk)
  · simp at hnu ⊢
    exact hnu
  · simp
  · exact List.nodup_dedup _

/-- Fuel above the measure is irrelevant, and never runs out: this is
the termination of preset expansion. -/
theorem expandRun_fuel (presets : List (String × urlOptions)) :
    ∀ f1 f2 (st : parseState) (work : List presetItem),
      expandMeasure presets st work < f1 →
      expandMeasure presets st work < f2 →
      expandRun presets f1 st work = expandRun presets f2 st work ∧
      expandRun presets f1 st work ≠ .error .depthExceeded := by
  intro f1
  induction f1 with
  | zero =>
      intro f2 st work h1 h2
      exact absurd h1 (Nat.not_lt_zero _)
  | succ a ih =>
      intro f2 st work h1 h2
      cases f2 with
      | zero => exact absurd h2 (Nat.not_lt_zero _)
      | succ b =>
          cases work with
          | nil => exact ⟨rfl, by simp [expandRun]⟩
          | cons item rest =>
              cases item with
              | opt o =>
                  by_cases ho : o.Name = "preset"
                  · have hm : expandMeasure presets st
                        (o.Args.map presetItem.pname ++ rest) <
                        expandMeasure presets st (presetItem.opt o :: rest) := by
                      simp [expandMeasure, workWeight_append,
                        workWeight_map_pname, workWeight_cons, itemWeight]
                    have hstep : ∀ f,
                        expandRun presets (f + 1) st (presetItem.opt o :: rest) =
                          expandRun presets f st
                            (o.Args.map presetItem.pname ++ rest) := by
                      intro f
                      simp [expandRun, ho]
                    rw [hstep a, hstep b]
                    exact ih b st _ (by omega) (by omega)
                  · have hm : expandMeasure presets (setOption st o) rest <
                        expandMeasure presets st (presetItem.opt o :: rest) := by
                      simp [expandMeasure, workWeight_cons, itemWeight,
                        unusedCount_setOption]
                    have hstep : ∀ f,
                        expandRun presets (f + 1) st (presetItem.opt o :: rest) =
                          expandRun presets f (setOption st o) rest := by
                      intro f
                      simp [expandRun, ho]
                    rw [hstep a, hstep b]
                    exact ih b (setOption st o) _ (by omega) (by omega)
              | pname n =>
                  by_cases hc : st.UsedPresets.contains n = true
                  · have hmem : n ∈ st.UsedPresets := by simpa using hc
                    have hm : expandMeasure presets st rest <
                        expandMeasure presets st (presetItem.pname n :: rest) := by
                      simp [expandMeasure, workWeight_cons, itemWeight]
                    have hstep : ∀ f,
                        expandRun presets (f + 1) st (presetItem.pname n :: rest) =
                          expandRun presets f st rest := by
                      intro f
                      simp [expandRun, hmem]
                    rw [hstep a, hstep b]
                    exact ih b st _ (by omega) (by omega)
                  · rw [Bool.not_eq_true] at hc
                    have hmem : n ∉ st.UsedPresets := by simpa using hc
                    cases hlk : presets.lookup n with
                    | none =>
                        have hstep : ∀ f,
                            expandRun presets (f + 1) st
                              (presetItem.pname n :: rest) =
                              .error .unknownPreset := by
                          intro f
                          simp [expandRun, hmem, hlk]
                        rw [hstep a, hstep b]
                        exact ⟨rfl, by simp⟩
                    | some body =>
                        have hu := unusedCount_mark hlk hc
                        have hbw := workWeight_body_lt_bodyBound hlk
                        have hm : expandMeasure presets
                            { st with UsedPresets := st.UsedPresets ++ [n] }
                            (body.map presetItem.opt ++ rest) <
                            expandMeasure presets st
                              (presetItem.pname n :: rest) := by
                          have hB : bodyBound presets *
                              unusedCount presets
                                { st with UsedPresets := st.UsedPresets ++ [n] } +
                              bodyBound presets ≤
                              bodyBound presets * unusedCount presets st := by
                            calc bodyBound presets *
                                unusedCount presets
                                  { st with
                                    UsedPresets := st.UsedPresets ++ [n] } +
                                bodyBound presets
                                = bodyBound presets *
                                    (unusedCount presets
                                      { st with
                                        UsedPresets :=
                                          st.UsedPresets ++ [n] } + 1) := by
                                  ring
                              _ ≤ bodyBound presets * unusedCount presets st :=
                                  Nat.mul_le_mul_left _ (by omega)
                          simp [expandMeasure, workWeight_append,
                            workWeight_cons, itemWeight]
                          omega
                        have hstep : ∀ f,
                            expandRun presets (f + 1) st
                              (presetItem.pname n :: rest) =
                              expandRun presets f
                                { st with
                                  UsedPresets := st.UsedPresets ++ [n] }
                                (body.map presetItem.opt ++ rest) := by
                          intro f
                          simp [expandRun, hmem, hlk]
                        rw [hstep a, hstep b]
                        exact ih b _ _ (by omega) (by omega)

/-- A duplicate-free list included in another is no longer than it. -/
theorem nodup_subset_length {l L : List String} (hn : l.Nodup)
    (hsub : ∀ x ∈ l, x ∈ L) : l.length ≤ L.length := by
  have h1 : l.toFinset.card = l.length := List.toFinset_card_of_nodup hn
  have h2 : l.toFinset ⊆ L.toFinset := by
    intro x hx
    rw [List.mem_toFinset] at hx ⊢
    exact hsub x hx
  have h3 := Finset.card_le_card h2
  have h4 := L.toFinset_card_le
  omega

/-- Along a successful expansion, UsedPresets only grows (the old value
stays a prefix), stays duplicate-free, and stays within the defined
names. -/
theorem expandRun_inv (presets : List (String × urlOptions)) :
    ∀ (f : Nat) (st : parseState) (work : List presetItem)
      (st' : parseState), expandRun presets f st work = .ok st' →
      (∃ t, st'.UsedPresets = st.UsedPresets ++ t) ∧
      (st.UsedPresets.Nodup → st'.UsedPresets.Nodup) ∧
      ((∀ x ∈ st.UsedPresets, x ∈ presets.map Prod.fst) →
        ∀ x ∈ st'.UsedPresets, x ∈ presets.map Prod.fst) := by
  intro f
  induction f with
  | zero =>
      intro st work st' h
      simp [expandRun] at h
  | succ a ih =>
      intro st work st' h
      cases work with
      | nil =>
          simp [expandRun] at h
          subst h
          exact ⟨⟨[], by simp⟩, fun hn => hn, fun hs => hs⟩
      | cons item rest =>
          cases item with
          | opt o =>
              by_cases ho : o.Name = "preset" <;>
                simp only [expandRun, ho, reduceIte] at h
              · exact ih st _ st' h
              · exact ih (setOption st o) rest st' h
          | pname n =>
              by_cases hc : st.UsedPresets.contains n = true
              · have hmem : n ∈ st.UsedPresets := by simpa using hc
                have hstep : expandRun presets (a + 1) st
                    (presetItem.pname n :: rest) = expandRun presets a st rest := by
                  simp [expandRun, hmem]
                rw [hstep] at h
                exact ih st rest st' h
              · rw [Bool.not_eq_true] at hc
                have hmem : n ∉ st.UsedPresets := by simpa using hc
                cases hlk : presets.lookup n with
                | none =>
                    have hstep : expandRun presets (a + 1) st
                        (presetItem.pname n :: rest) =
                        .error .unknownPreset := by
                      simp [expandRun, hmem, hlk]
                    rw [hstep] at h
                    cases h
                | some body =>
                    have hstep : expandRun presets (a + 1) st
                        (presetItem.pname n :: rest) =
                        expandRun presets a
                          { st with UsedPresets := st.UsedPresets ++ [n] }
                          (body.map presetItem.opt ++ rest) := by
                      simp [expandRun, hmem, hlk]
                    rw [hstep] at h
                    obtain ⟨⟨t, ht⟩, hnd, hsub⟩ := ih _ _ st' h
                    refine ⟨⟨n :: t, by simpa using ht⟩, ?_, ?_⟩
                    · intro hnd0
                      apply hnd
                      simp [List.nodup_append, hnd0, hmem]
                    · intro hsub0
                      apply hsub
                      intro x hx
                      rcases List.mem_append.mp hx with hx | hx
                      · exact hsub0 x hx
                      · simp at hx
                        subst hx
                        exact lookup_mem_keys hlk

/-- The preset table of the loop-detection test: test1 sets
resizing_type fill, test2 sets blur 0.2 and quality 50. -/
def presetsTest : List (String × urlOptions) :=
  [("test1", [⟨"resizing_type", ["fill"]⟩]),
   ("test2", [⟨"blur", ["0.2"]⟩, ⟨"quality", ["50"]⟩])]

/-- C7: preset expansion terminates on every input (above the measure,
fuel is irrelevant and the depth error unreachable); UsedPresets only
ever grows, stays duplicate-free, and its size is bounded by the number
of defined presets; and expanding preset:test1:test2:test1 against the
test presets records exactly test1 then test2, the repeated reference
silently skipped. -/
theorem C7_preset_expansion (presets : List (String × urlOptions)) :
    (∀ f1 f2 st work, expandMeasure presets st work < f1 →
      expandMeasure presets st work < f2 →
      expandRun presets f1 st work = expandRun presets f2 st work ∧
      expandRun presets f1 st work ≠ .error .depthExceeded) ∧
    (∀ f st work st', expandRun presets f st work = .ok st' →
      (∃ t, st'.UsedPresets = st.UsedPresets ++ t) ∧
      (st.UsedPresets.Nodup → st'.UsedPresets.Nodup) ∧
      (st.UsedPresets.Nodup →
        (∀ x ∈ st.UsedPresets, x ∈ presets.map Prod.fst) →
        st'.UsedPresets.length ≤ presets.length)) ∧
    expandRun presetsTest 32 ⟨[], []⟩
        [.opt ⟨"preset", ["test1", "test2", "test1"]⟩] =
      .ok ⟨["test1", "test2"],
           [("quality", ["50"]), ("blur", ["0.2"]),
            ("resizing_type", ["fill"])]⟩ := by
  refine ⟨expandRun_fuel presets, fun f st work st' h => ?_, by decide⟩
  obtain ⟨hg, hnd, hsub⟩ := expandRun_inv presets f st work st' h
  refine ⟨hg, hnd, fun hnd0 hsub0 => ?_⟩
  have h1 := nodup_subset_length (hnd hnd0) (hsub hsub0)
  simpa using h1

/-- C7 witness: fuel irrelevance and the preset-count bound at the
concrete loop-detection scenario. -/
theorem C7_preset_expansion_witness :
    expandRun presetsTest 20 ⟨[], []⟩
        [.opt ⟨"preset", ["test1", "test2", "test1"]⟩] =
      expandRun presetsTest 21 ⟨[], []⟩
        [.opt ⟨"preset", ["test1", "test2", "test1"]⟩] ∧
    (["test1", "test2"] : List String).length ≤ presetsTest.length := by
  constructor
  · exact ((C7_preset_expansion presetsTest).1 20 21 ⟨[], []⟩
      [.opt ⟨"preset", ["test1", "test2", "test1"]⟩]
      (by decide) (by decide)).1
  · exact ((C7_preset_expansion presetsTest).2.1 32 ⟨[], []⟩
      [.opt ⟨"preset", ["test1", "test2", "test1"]⟩]
      ⟨["test1", "test2"],
       [("quality", ["50"]), ("blur", ["0.2"]),
        ("resizing_type", ["fill"])]⟩ (by decide)).2.2
      (by decide) (by simp)

end Imgproxy
